import Mathlib

/-!
# Verification of the SEG-Y manual header read/write codec

Shallow embedding of `applications/manual_read_write/rw_segy.py`.

The program defines a table-driven codec for the 400-byte binary file
header of a SEG-Y-style container (struct format codes `B`, `H`, `I`,
`Q`, `200s`, `66s`, all big-endian), plus a decoder for the 3200-byte
textual header (code page cp1141, split into 40 lines of 80 chars).

Byte buffers are modelled as `List Nat` (each element intended `< 256`);
Python's unbounded integers as `Int`; `struct.pack` failures and the
`assert` checks as an explicit error type.
-/

namespace RwSegy

instance {ε α : Type} [DecidableEq ε] [DecidableEq α] : DecidableEq (Except ε α)
  | .ok a, .ok b =>
    if h : a = b then .isTrue (by rw [h])
    else .isFalse (fun hh => by cases hh; exact h rfl)
  | .ok _, .error _ => .isFalse (fun hh => by cases hh)
  | .error _, .ok _ => .isFalse (fun hh => by cases hh)
  | .error e, .error f =>
    if h : e = f then .isTrue (by rw [h])
    else .isFalse (fun hh => by cases hh; exact h rfl)

/-- The struct format codes used by the program: `B`, `H`, `I`, `Q`, and
fixed-length byte strings `ns` (the program uses `200s` and `66s`). -/
inductive DType where
  | U8
  | U16
  | U32
  | U64
  | S (n : Nat)
deriving DecidableEq, Repr

/-- `struct.Struct(endian + d_type).size`: the byte width of a field. -/
def DType.size : DType → Nat
  | .U8 => 1
  | .U16 => 2
  | .U32 => 4
  | .U64 => 8
  | .S n => n

/-- The integer width of a format code, `none` for byte-string fields. -/
def DType.intWidth : DType → Option Nat
  | .U8 => some 1
  | .U16 => some 2
  | .U32 => some 4
  | .U64 => some 8
  | .S _ => none

/-- A Python value stored in the header's `values` dict: an (unbounded)
integer, or a byte string. -/
inductive FValue where
  | int (v : Int)
  | bytes (bs : List Nat)
deriving DecidableEq, Repr

/-- Error kinds of the codec, as named by the design: wrong buffer
length, failed endianness sentinel check, and a failure while packing a
field on encode (carrying the offending field's name).  `decodeFailure`
models a `bytes.decode` error on the textual header. -/
inductive SegyError where
  | lengthMismatch
  | endiannessMismatch
  | encodeFieldError (name : String)
  | decodeFailure
deriving DecidableEq, Repr

/-- Big-endian interpretation of a byte list as an unsigned integer
(`struct.unpack` with `>` on an integer format code). -/
def bytesToNatBE (bs : List Nat) : Nat :=
  bs.foldl (fun acc b => acc * 256 + b) 0

/-- Big-endian encoding of an unsigned integer into `w` bytes
(`struct.pack` with `>` on an integer format code). -/
def natToBytesBE : Nat → Nat → List Nat
  | 0, _ => []
  | w + 1, v => natToBytesBE w (v / 256) ++ [v % 256]

/-- `struct.unpack` of one field slice per its format code: integers are
big-endian unsigned, byte strings pass through uninterpreted. -/
def unpackField : DType → List Nat → FValue
  | .U8, bs => .int (bytesToNatBE bs)
  | .U16, bs => .int (bytesToNatBE bs)
  | .U32, bs => .int (bytesToNatBE bs)
  | .U64, bs => .int (bytesToNatBE bs)
  | .S _, bs => .bytes bs

/-- `struct.pack` of one field value per its format code.  Unsigned
integer codes require `0 ≤ v < 256^w` and a value of integer type;
`ns` requires a byte string and pads with zero bytes or truncates to
exactly `n` bytes.  `none` models the raised `struct.error`. -/
def packField : DType → FValue → Option (List Nat)
  | t, .int v =>
    match t.intWidth with
    | some w => if 0 ≤ v ∧ v < (256 : Int) ^ w then some (natToBytesBE w v.toNat) else none
    | none => none
  | t, .bytes bs =>
    match t with
    | .S n => some (bs.take n ++ List.replicate (n - bs.length) 0)
    | _ => none

/-- Total byte size of a schema: the sum of its fields' widths. -/
def totalSize (schema : List (DType × String)) : Nat :=
  (schema.map (fun f => f.1.size)).sum

/-- Dict lookup on the `values` association list (first match). -/
def lookup : List (String × FValue) → String → Option FValue
  | [], _ => none
  | (n, v) :: rest, name => if n = name then some v else lookup rest name

/-- Dict assignment `values[name] = v`: replaces the first entry for
`name`, or appends a new entry when absent. -/
def setValue : List (String × FValue) → String → FValue → List (String × FValue)
  | [], name, v => [(name, v)]
  | (n, w) :: rest, name, v =>
    if n = name then (n, v) :: rest else (n, w) :: setValue rest name v

/-- The decode loop of `BinaryFileHeader.__init__`: walk the schema in
order, consuming consecutive slices and unpacking each per its format
code, building the `values` dict in schema order. -/
def decodeFields : List (DType × String) → List Nat → List (String × FValue)
  | [], _ => []
  | (t, n) :: rest, data =>
    (n, unpackField t (data.take t.size)) :: decodeFields rest (data.drop t.size)

/-- The encode loop of `dump_data`: walk the schema in order, look up
each field's current value and pack it, concatenating the pieces.  A
missing or unpackable value aborts with `encodeFieldError` naming the
field; nothing is returned in that case (no partial output). -/
def dumpFields (values : List (String × FValue)) : List (DType × String) → Except SegyError (List Nat)
  | [] => .ok []
  | (t, n) :: rest =>
    match lookup values n with
    | none => .error (.encodeFieldError n)
    | some v =>
      match packField t v with
      | none => .error (.encodeFieldError n)
      | some bs =>
        match dumpFields values rest with
        | .error e => .error e
        | .ok out => .ok (bs ++ out)

/-- Byte offset and format code of a named field within a schema: the
cumulative width of all fields preceding the first field of that name. -/
def fieldOffset : List (DType × String) → String → Option (Nat × DType)
  | [], _ => none
  | (t, n) :: rest, name =>
    if n = name then some (0, t)
    else (fieldOffset rest name).map (fun p => (t.size + p.1, p.2))

/-- The module-level `fields` list (the legacy/short schema). -/
def fields : List (DType × String) := [
  (.U32, "job_nr"),
  (.U32, "line_nr"),
  (.U32, "reel_nr"),
  (.U16, "nr_of_traces"),
  (.U16, "nr_of_aux"),
  (.U16, "sample_int_1"),
  (.U16, "sample_int_2"),
  (.U16, "nr_samples_per_trace"),
  (.U16, "nr_samples_per_data_trace")]

namespace BinaryFileHeader

/-- `BinaryFileHeader.defined_fields`: the full binary-header schema,
in source order. -/
def defined_fields : List (DType × String) := [
  (.U32, "job_nr"),
  (.U32, "line_nr"),
  (.U32, "reel_nr"),
  (.U16, "nr_of_traces"),
  (.U16, "nr_of_aux"),
  (.U16, "sample_int_1"),
  (.U16, "sample_int_2"),
  (.U16, "nr_samples_per_trace"),
  (.U16, "nr_samples_per_data_trace"),
  (.U16, "format_code"),
  (.U16, "ensemble_fold"),
  (.U16, "trace_sorting_code"),
  (.U16, "vertical_sum_code"),
  (.U16, "sweep_freq_start"),
  (.U16, "sweep_freq_end"),
  (.U16, "sweep_freq_length"),
  (.U16, "sweep_type_code"),
  (.U16, "trace_nr"),
  (.U16, "sweep_trace_taper_start"),
  (.U16, "sweep_trace_taper_end"),
  (.U16, "taper_type"),
  (.U16, "correlated_trace"),
  (.U16, "binary_gain_recovered"),
  (.U16, "amp_recover_method"),
  (.U16, "measurement_system"),
  (.U16, "impulse_signal_polarity"),
  (.U16, "vib_polarity_code"),
  (.U32, "ext_nr_data_traces_pr_ensemble"),
  (.U32, "ext_nr_aux_traces_pr_ensemble"),
  (.U32, "ext_nr_sample_pr_data_trace"),
  (.U64, "ext_sample_interval_IEEE"),
  (.U64, "ext_sample_interval_original_IEEE"),
  (.U32, "ext_sample_interval_original"),
  (.U32, "ext_ensemble_fold"),
  (.U32, "int_constant"),
  (.S 200, "unassigned_1"),
  (.U8, "major_ver"),
  (.U8, "min_ver"),
  (.U16, "trace_flag"),
  (.U16, "nr_of_extensions"),
  (.U16, "max_trace_headers"),
  (.U16, "survey_type"),
  (.U64, "time_code"),
  (.U64, "ext_nr_of_traces"),
  (.U32, "bytes_offset"),
  (.U32, "nr_data_trailer"),
  (.S 66, "unassigned_2")]

/-- `BinaryFileHeader.BINARY_FILE_HEADER_SIZE`. -/
def BINARY_FILE_HEADER_SIZE : Nat := 400

/-- `BinaryFileHeader.__init__`: asserts the buffer length is exactly
400, decodes every schema field in order, then asserts the sentinel
`values["int_constant"] == 16909060` (raising "Wrong endianness"
otherwise).  Returns the `values` dict. -/
def decode (data : List Nat) : Except SegyError (List (String × FValue)) :=
  if data.length = BINARY_FILE_HEADER_SIZE then
    if lookup (decodeFields defined_fields data) "int_constant" = some (.int 16909060) then
      .ok (decodeFields defined_fields data)
    else .error .endiannessMismatch
  else .error .lengthMismatch

/-- `BinaryFileHeader.dump_data`: re-encode the (possibly mutated)
`values` dict by walking the same schema. -/
def dump_data (values : List (String × FValue)) : Except SegyError (List Nat) :=
  dumpFields values defined_fields

end BinaryFileHeader

/-- The cp1141 code page (EBCDIC Germany/Austria with euro sign): the
Unicode code point assigned to each of the 256 byte values, in byte
order. -/
def cp1141Table : List Nat := [
  0, 1, 2, 3, 156, 9, 134, 127, 151, 141, 142, 11, 12, 13, 14, 15,
  16, 17, 18, 19, 157, 133, 8, 135, 24, 25, 146, 143, 28, 29, 30, 31,
  128, 129, 130, 131, 132, 10, 23, 27, 136, 137, 138, 139, 140, 5, 6, 7,
  144, 145, 22, 147, 148, 149, 150, 4, 152, 153, 154, 155, 20, 21, 158, 26,
  32, 160, 226, 123, 224, 225, 227, 229, 231, 241, 196, 46, 60, 40, 43, 33,
  38, 233, 234, 235, 232, 237, 238, 239, 236, 126, 220, 36, 42, 41, 59, 94,
  45, 47, 194, 91, 192, 193, 195, 197, 199, 209, 246, 44, 37, 95, 62, 63,
  248, 201, 202, 203, 200, 205, 206, 207, 204, 96, 58, 35, 167, 39, 61, 34,
  216, 97, 98, 99, 100, 101, 102, 103, 104, 105, 171, 187, 240, 253, 254, 177,
  176, 106, 107, 108, 109, 110, 111, 112, 113, 114, 170, 186, 230, 184, 198, 8364,
  181, 223, 115, 116, 117, 118, 119, 120, 121, 122, 161, 191, 208, 221, 222, 174,
  162, 163, 165, 183, 169, 64, 182, 188, 189, 190, 172, 124, 8254, 168, 180, 215,
  228, 65, 66, 67, 68, 69, 70, 71, 72, 73, 173, 244, 166, 242, 243, 245,
  252, 74, 75, 76, 77, 78, 79, 80, 81, 82, 185, 251, 125, 249, 250, 255,
  214, 247, 83, 84, 85, 86, 87, 88, 89, 90, 178, 212, 92, 210, 211, 213,
  48, 49, 50, 51, 52, 53, 54, 55, 56, 57, 179, 219, 93, 217, 218, 159]

/-- Decoding one byte with cp1141: defined exactly on byte values
`0 ≤ b < 256` (the code page assigns a character to every byte). -/
def cp1141Char (b : Nat) : Option Nat :=
  cp1141Table.get? b

/-- `bytes.decode("cp1141")`: decode every byte of the buffer in order;
any byte outside the code page aborts the whole decode. -/
def decodeChars : List Nat → Option (List Nat)
  | [] => some []
  | b :: rest =>
    match cp1141Char b, decodeChars rest with
    | some c, some cs => some (c :: cs)
    | _, _ => none

namespace TextualFileHeader

/-- `TextualFileHeader.TEXTUAL_FILE_HEADER_SIZE`. -/
def TEXTUAL_FILE_HEADER_SIZE : Nat := 3200

/-- `TextualFileHeader.__init__`: asserts the buffer length is exactly
3200, decodes the whole buffer with cp1141 into a character sequence
(`decodeFailure` would model a codec error on a non-byte), and splits
the text into `3200 / 80 = 40` consecutive slices `text[80*i : 80*(i+1)]`.
Returns the decoded text and the list of lines. -/
def decode (data : List Nat) : Except SegyError (List Nat × List (List Nat)) :=
  if data.length = TEXTUAL_FILE_HEADER_SIZE then
    match decodeChars data with
    | none => .error .decodeFailure
    | some text =>
      .ok (text, (List.range (TEXTUAL_FILE_HEADER_SIZE / 80)).map
        (fun i => (text.drop (i * 80)).take 80))
  else .error .lengthMismatch

end TextualFileHeader

/-! ## Basic lemmas about the byte-level helpers -/

theorem natToBytesBE_length (w v : Nat) : (natToBytesBE w v).length = w := by
  induction w generalizing v with
  | zero => rfl
  | succ w ih => simp [natToBytesBE, ih]

theorem bytesToNatBE_append_singleton (bs : List Nat) (b : Nat) :
    bytesToNatBE (bs ++ [b]) = bytesToNatBE bs * 256 + b := by
  simp [bytesToNatBE, List.foldl_append]

theorem bytesToNatBE_lt (bs : List Nat) (hb : ∀ b ∈ bs, b < 256) :
    bytesToNatBE bs < 256 ^ bs.length := by
  induction bs using List.reverseRecOn with
  | nil => simp [bytesToNatBE]
  | append_singleton xs x ih =>
    rw [bytesToNatBE_append_singleton]
    have hx : x < 256 := hb x (by simp)
    have hxs : bytesToNatBE xs < 256 ^ xs.length :=
      ih (fun b hbm => hb b (by simp [hbm]))
    have : bytesToNatBE xs * 256 + x < (bytesToNatBE xs + 1) * 256 := by omega
    calc bytesToNatBE xs * 256 + x < (bytesToNatBE xs + 1) * 256 := this
      _ ≤ 256 ^ xs.length * 256 := by
          have : bytesToNatBE xs + 1 ≤ 256 ^ xs.length := hxs
          exact Nat.mul_le_mul_right 256 this
      _ = 256 ^ (xs ++ [x]).length := by
          simp [pow_succ]

theorem natToBytesBE_bytesToNatBE (bs : List Nat) (hb : ∀ b ∈ bs, b < 256) :
    natToBytesBE bs.length (bytesToNatBE bs) = bs := by
  induction bs using List.reverseRecOn with
  | nil => rfl
  | append_singleton xs x ih =>
    have hx : x < 256 := hb x (by simp)
    have hxs : ∀ b ∈ xs, b < 256 := fun b hbm => hb b (by simp [hbm])
    rw [bytesToNatBE_append_singleton]
    have hlen : (xs ++ [x]).length = xs.length + 1 := by simp
    rw [hlen]
    show natToBytesBE xs.length ((bytesToNatBE xs * 256 + x) / 256) ++
        [(bytesToNatBE xs * 256 + x) % 256] = xs ++ [x]
    have hdiv : (bytesToNatBE xs * 256 + x) / 256 = bytesToNatBE xs := by omega
    have hmod : (bytesToNatBE xs * 256 + x) % 256 = x := by omega
    rw [hdiv, hmod, ih hxs]

/-! ## Packing and unpacking a single field -/

theorem packField_unpackField (t : DType) (bs : List Nat)
    (hlen : bs.length = t.size) (hb : ∀ b ∈ bs, b < 256) :
    packField t (unpackField t bs) = some bs := by
  have hint : ∀ w : Nat, t.intWidth = some w → t.size = w → packField t (.int (bytesToNatBE bs : Nat)) = some bs := by
    intro w hw hsz
    have hlt : bytesToNatBE bs < 256 ^ w := by
      have := bytesToNatBE_lt bs hb
      rwa [hlen, hsz] at this
    have hlt' : ((bytesToNatBE bs : Nat) : Int) < (256 : Int) ^ w := by
      exact_mod_cast hlt
    simp only [packField, hw]
    rw [if_pos ⟨Int.natCast_nonneg _, hlt'⟩]
    rw [Int.toNat_natCast]
    have : natToBytesBE bs.length (bytesToNatBE bs) = bs := natToBytesBE_bytesToNatBE bs hb
    rw [hlen, hsz] at this
    rw [this]
  cases t with
  | U8 => exact hint 1 rfl rfl
  | U16 => exact hint 2 rfl rfl
  | U32 => exact hint 4 rfl rfl
  | U64 => exact hint 8 rfl rfl
  | S n =>
    simp only [unpackField, packField]
    have hlen' : bs.length = n := hlen
    rw [hlen', Nat.sub_self]
    simp [← hlen', List.take_length]

theorem packField_length (t : DType) (v : FValue) (bs : List Nat)
    (h : packField t v = some bs) : bs.length = t.size := by
  cases v with
  | int n =>
    cases t <;> simp only [packField, DType.intWidth] at h <;>
      first
      | (split at h
         · cases h; simp [natToBytesBE_length, DType.size]
         · cases h)
      | cases h
  | bytes l =>
    cases t <;> simp only [packField] at h <;> try cases h
    case S.refl =>
      simp only [List.length_append, List.length_take, List.length_replicate, DType.size]
      omega

/-! ## Lemmas about the values dict and the schema walks -/

theorem lookup_setValue_self (vals : List (String × FValue)) (name : String) (v : FValue) :
    lookup (setValue vals name v) name = some v := by
  induction vals with
  | nil => simp [setValue, lookup]
  | cons hd tl ih =>
    obtain ⟨n, w⟩ := hd
    by_cases h : n = name
    · simp [setValue, h, lookup]
    · simp [setValue, h, lookup, ih]

theorem lookup_setValue_ne (vals : List (String × FValue)) (name m : String) (v : FValue)
    (h : name ≠ m) : lookup (setValue vals name v) m = lookup vals m := by
  induction vals with
  | nil => simp [setValue, lookup, fun hh => h hh]
  | cons hd tl ih =>
    obtain ⟨n, w⟩ := hd
    by_cases hn : n = name
    · subst hn
      simp [setValue, lookup, h, ih]
    · simp [setValue, hn, lookup, ih]

theorem dumpFields_cons_irrel (vals : List (String × FValue)) (n : String) (v : FValue)
    (schema : List (DType × String)) (h : n ∉ schema.map Prod.snd) :
    dumpFields ((n, v) :: vals) schema = dumpFields vals schema := by
  induction schema with
  | nil => rfl
  | cons hd tl ih =>
    obtain ⟨t, m⟩ := hd
    have hne : n ≠ m := by
      intro hh
      exact h (by simp [hh])
    have htl : n ∉ tl.map Prod.snd := by
      intro hh
      exact h (by simp [hh])
    simp only [dumpFields, lookup, if_neg hne, ih htl]

theorem lookup_decodeFields (schema : List (DType × String)) (data : List Nat)
    (name : String) (off : Nat) (t : DType)
    (h : fieldOffset schema name = some (off, t)) :
    lookup (decodeFields schema data) name =
      some (unpackField t ((data.drop off).take t.size)) := by
  induction schema generalizing data off with
  | nil => simp [fieldOffset] at h
  | cons hd tl ih =>
    obtain ⟨t₀, n₀⟩ := hd
    by_cases hn : n₀ = name
    · simp only [fieldOffset, if_pos hn] at h
      cases h
      simp [decodeFields, lookup, hn]
    · simp only [fieldOffset, if_neg hn] at h
      obtain ⟨⟨off', t'⟩, hoff, heq⟩ := Option.map_eq_some'.mp h
      simp only at heq
      cases heq
      simp only [decodeFields, lookup, if_neg hn]
      rw [ih (data.drop t₀.size) off' hoff, List.drop_drop]

theorem dumpFields_decodeFields (schema : List (DType × String)) (data : List Nat)
    (hnd : (schema.map Prod.snd).Nodup) (hlen : totalSize schema = data.length)
    (hb : ∀ b ∈ data, b < 256) :
    dumpFields (decodeFields schema data) schema = .ok data := by
  induction schema generalizing data with
  | nil =>
    have : data = [] := by
      cases data with
      | nil => rfl
      | cons x xs => simp [totalSize] at hlen
    subst this
    rfl
  | cons hd tl ih =>
    obtain ⟨t, n⟩ := hd
    have hsz : t.size + totalSize tl = data.length := by
      simpa [totalSize] using hlen
    have hszle : t.size ≤ data.length := by omega
    have htake_len : (data.take t.size).length = t.size := by
      simp [List.length_take, Nat.min_eq_left hszle]
    have htake_b : ∀ b ∈ data.take t.size, b < 256 :=
      fun b hbm => hb b (List.take_subset _ _ hbm)
    have hdrop_b : ∀ b ∈ data.drop t.size, b < 256 :=
      fun b hbm => hb b (List.drop_subset _ _ hbm)
    have hdrop_len : totalSize tl = (data.drop t.size).length := by
      simp [List.length_drop]
      omega
    have hnd' : (tl.map Prod.snd).Nodup := (List.nodup_cons.mp hnd).2
    have hnmem : n ∉ tl.map Prod.snd := (List.nodup_cons.mp hnd).1
    simp only [decodeFields, dumpFields, lookup, eq_self_iff_true, if_true,
      packField_unpackField t (data.take t.size) htake_len htake_b,
      dumpFields_cons_irrel _ n _ tl hnmem,
      ih (data.drop t.size) hnd' hdrop_len hdrop_b]
    simp [List.take_append_drop]

theorem fieldOffset_bound (schema : List (DType × String)) (name : String) (off : Nat)
    (t : DType) (h : fieldOffset schema name = some (off, t)) :
    off + t.size ≤ totalSize schema := by
  induction schema generalizing off with
  | nil => simp [fieldOffset] at h
  | cons hd tl ih =>
    obtain ⟨t₀, n₀⟩ := hd
    by_cases hn : n₀ = name
    · simp only [fieldOffset, if_pos hn] at h
      cases h
      simp [totalSize]
    · simp only [fieldOffset, if_neg hn] at h
      obtain ⟨⟨off', t'⟩, hoff, heq⟩ := Option.map_eq_some'.mp h
      simp only at heq
      cases heq
      have := ih off' hoff
      simp only [totalSize, List.map_cons, List.sum_cons]
      simp only [totalSize] at this
      omega

theorem dumpFields_setValue (schema : List (DType × String)) (data : List Nat)
    (name : String) (off : Nat) (t : DType) (v : FValue) (bs : List Nat)
    (hnd : (schema.map Prod.snd).Nodup) (hlen : totalSize schema = data.length)
    (hb : ∀ b ∈ data, b < 256)
    (hfield : fieldOffset schema name = some (off, t))
    (hpack : packField t v = some bs) :
    dumpFields (setValue (decodeFields schema data) name v) schema =
      .ok (data.take off ++ bs ++ data.drop (off + t.size)) := by
  induction schema generalizing data off with
  | nil => simp [fieldOffset] at hfield
  | cons hd tl ih =>
    obtain ⟨t₀, n₀⟩ := hd
    have hsz : t₀.size + totalSize tl = data.length := by
      simpa [totalSize] using hlen
    have hszle : t₀.size ≤ data.length := by omega
    have htake_len : (data.take t₀.size).length = t₀.size := by
      simp [List.length_take, Nat.min_eq_left hszle]
    have htake_b : ∀ b ∈ data.take t₀.size, b < 256 :=
      fun b hbm => hb b (List.take_subset _ _ hbm)
    have hdrop_b : ∀ b ∈ data.drop t₀.size, b < 256 :=
      fun b hbm => hb b (List.drop_subset _ _ hbm)
    have hdrop_len : totalSize tl = (data.drop t₀.size).length := by
      simp [List.length_drop]
      omega
    have hnd' : (tl.map Prod.snd).Nodup := (List.nodup_cons.mp hnd).2
    have hnmem : n₀ ∉ tl.map Prod.snd := (List.nodup_cons.mp hnd).1
    by_cases hn : n₀ = name
    · simp only [fieldOffset, if_pos hn] at hfield
      have hp := Option.some.inj hfield
      have h1 : (0 : Nat) = off := congrArg Prod.fst hp
      have h2 : t₀ = t := congrArg Prod.snd hp
      subst h1
      subst h2
      simp only [decodeFields, setValue, if_pos hn, dumpFields, lookup,
        eq_self_iff_true, if_true, hpack]
      rw [dumpFields_cons_irrel _ n₀ _ tl hnmem,
        dumpFields_decodeFields tl (data.drop t₀.size) hnd' hdrop_len hdrop_b]
      simp
    · simp only [fieldOffset, if_neg hn] at hfield
      obtain ⟨⟨off', t'⟩, hoff, heq⟩ := Option.map_eq_some'.mp hfield
      simp only at heq
      have h1 : t₀.size + off' = off := congrArg Prod.fst heq
      have h2 : t' = t := congrArg Prod.snd heq
      subst h1
      subst h2
      simp only [decodeFields, setValue, if_neg hn, dumpFields, lookup,
        eq_self_iff_true, if_true,
        packField_unpackField t₀ (data.take t₀.size) htake_len htake_b]
      rw [dumpFields_cons_irrel _ n₀ _ tl hnmem,
        ih (data.drop t₀.size) off' hnd' hdrop_len hdrop_b hoff]
      rw [List.drop_drop, List.take_add, Nat.add_assoc]
      simp [List.append_assoc]

/-! ## Lemmas for the encode error analysis -/

theorem dumpFields_ok_or_error (values : List (String × FValue))
    (schema : List (DType × String)) :
    (∃ out, dumpFields values schema = .ok out ∧ out.length = totalSize schema) ∨
    (∃ t name, (t, name) ∈ schema ∧
      dumpFields values schema = .error (.encodeFieldError name) ∧
      (lookup values name = none ∨
        ∃ v, lookup values name = some v ∧ packField t v = none)) := by
  induction schema with
  | nil => exact Or.inl ⟨[], rfl, rfl⟩
  | cons hd tl ih =>
    obtain ⟨t₀, n₀⟩ := hd
    cases hlk : lookup values n₀ with
    | none =>
      refine Or.inr ⟨t₀, n₀, by simp, ?_, Or.inl hlk⟩
      simp [dumpFields, hlk]
    | some v =>
      cases hpk : packField t₀ v with
      | none =>
        refine Or.inr ⟨t₀, n₀, by simp, ?_, Or.inr ⟨v, hlk, hpk⟩⟩
        simp [dumpFields, hlk, hpk]
      | some bs =>
        rcases ih with ⟨out, hout, hlen⟩ | ⟨t, name, hmem, herr, hbad⟩
        · refine Or.inl ⟨bs ++ out, ?_, ?_⟩
          · simp [dumpFields, hlk, hpk, hout]
          · have := packField_length t₀ v bs hpk
            simp [totalSize, List.length_append, hlen, this]
        · refine Or.inr ⟨t, name, by simp [hmem], ?_, hbad⟩
          simp [dumpFields, hlk, hpk, herr]

theorem dumpFields_ok_forall (values : List (String × FValue))
    (schema : List (DType × String)) (out : List Nat)
    (hok : dumpFields values schema = .ok out) :
    ∀ t name, (t, name) ∈ schema →
      ∃ v bs, lookup values name = some v ∧ packField t v = some bs := by
  induction schema generalizing out with
  | nil => intro t name hmem; simp at hmem
  | cons hd tl ih =>
    obtain ⟨t₀, n₀⟩ := hd
    intro t name hmem
    cases hlk : lookup values n₀ with
    | none => simp [dumpFields, hlk] at hok
    | some v =>
      cases hpk : packField t₀ v with
      | none => simp [dumpFields, hlk, hpk] at hok
      | some bs =>
        cases hrest : dumpFields values tl with
        | error e => simp [dumpFields, hlk, hpk, hrest] at hok
        | ok out' =>
          rcases List.mem_cons.mp hmem with heq | hmem'
          · have h1 : t₀ = t := congrArg Prod.fst heq.symm
            have h2 : n₀ = name := congrArg Prod.snd heq.symm
            subst h1; subst h2
            exact ⟨v, bs, hlk, hpk⟩
          · exact ih out' hrest t name hmem'

/-! ## Lemmas for the textual header -/

theorem decodeChars_length (data text : List Nat)
    (h : decodeChars data = some text) : text.length = data.length := by
  induction data generalizing text with
  | nil => cases h; rfl
  | cons b rest ih =>
    simp only [decodeChars] at h
    cases hc : cp1141Char b with
    | none => rw [hc] at h; simp at h
    | some c =>
      rw [hc] at h
      cases hr : decodeChars rest with
      | none => rw [hr] at h; simp at h
      | some cs =>
        rw [hr] at h
        cases h
        simp [ih cs hr]

set_option maxRecDepth 2000 in
theorem cp1141Table_length : cp1141Table.length = 256 := by rfl

theorem decodeChars_total (data : List Nat) (hb : ∀ b ∈ data, b < 256) :
    ∃ text, decodeChars data = some text := by
  induction data with
  | nil => exact ⟨[], rfl⟩
  | cons b rest ih =>
    have hblt : b < 256 := hb b (by simp)
    have hc : cp1141Char b ≠ none := by
      rw [cp1141Char, Ne, List.get?_eq_none, cp1141Table_length]
      omega
    obtain ⟨c, hcs⟩ := Option.ne_none_iff_exists'.mp hc
    obtain ⟨cs, hrs⟩ := ih (fun x hx => hb x (by simp [hx]))
    exact ⟨c :: cs, by simp [decodeChars, hcs, hrs]⟩

theorem flatten_take_chunks (n : Nat) (t : List Nat) :
    ((List.range n).map (fun i => (t.drop (i * 80)).take 80)).flatten = t.take (n * 80) := by
  induction n with
  | zero => simp
  | succ n ih =>
    rw [List.range_succ, List.map_append, List.flatten_append, ih]
    simp only [List.map_cons, List.map_nil, List.flatten_cons, List.flatten_nil,
      List.append_nil]
    rw [← List.take_add]
    congr 1
    ring

/-! ## Facts about the concrete binary-header schema -/

set_option maxRecDepth 10000 in
theorem defined_fields_names_nodup :
    (BinaryFileHeader.defined_fields.map Prod.snd).Nodup := by decide

set_option maxRecDepth 10000 in
theorem defined_fields_totalSize :
    totalSize BinaryFileHeader.defined_fields = 400 := by decide

set_option maxRecDepth 10000 in
theorem fieldOffset_int_constant :
    fieldOffset BinaryFileHeader.defined_fields "int_constant" = some (96, .U32) := by decide

/-- A valid sample buffer: zeros everywhere except the sentinel bytes
`01 02 03 04` at offset 96. -/
def sampleBuf : List Nat :=
  List.replicate 96 0 ++ [1, 2, 3, 4] ++ List.replicate 300 0

/-! ## Claim theorems -/

/-- C1: Round-trip identity — for every 400-byte buffer whose decode
succeeds (in particular whose 4-byte big-endian sentinel `int_constant`
is `0x01020304`), re-encoding the unmutated value mapping with
`dump_data` returns exactly the original bytes. -/
theorem c1_round_trip_identity (data : List Nat) (values : List (String × FValue))
    (hb : ∀ b ∈ data, b < 256)
    (hdec : BinaryFileHeader.decode data = .ok values) :
    BinaryFileHeader.dump_data values = .ok data := by
  unfold BinaryFileHeader.decode BinaryFileHeader.BINARY_FILE_HEADER_SIZE at hdec
  split at hdec
  case isTrue hlen =>
    split at hdec
    case isTrue hsent =>
      cases hdec
      exact dumpFields_decodeFields _ data defined_fields_names_nodup
        (by rw [defined_fields_totalSize, hlen]) hb
    case isFalse hsent => cases hdec
  case isFalse hlen => cases hdec

set_option maxRecDepth 10000 in
theorem c1_witness :
    BinaryFileHeader.dump_data (decodeFields BinaryFileHeader.defined_fields sampleBuf) =
      .ok sampleBuf :=
  c1_round_trip_identity sampleBuf _ (by decide) (by decide)

/-- C2: Selective-mutation frame property — decoding a valid buffer,
overwriting one schema field's entry with an in-range value (one that
packs to bytes `bs`), and re-encoding yields exactly the original
buffer with only that field's byte range `[off, off + width)` replaced
by `bs`: bytes outside the range are unchanged and the bytes inside
are exactly the encoding of the new value. -/
theorem c2_selective_mutation (data : List Nat) (values : List (String × FValue))
    (name : String) (off : Nat) (t : DType) (v : FValue) (bs : List Nat)
    (hb : ∀ b ∈ data, b < 256)
    (hdec : BinaryFileHeader.decode data = .ok values)
    (hfield : fieldOffset BinaryFileHeader.defined_fields name = some (off, t))
    (hpack : packField t v = some bs) :
    BinaryFileHeader.dump_data (setValue values name v) =
      .ok (data.take off ++ bs ++ data.drop (off + t.size)) ∧
    (∀ i, i < off ∨ off + t.size ≤ i →
      (data.take off ++ bs ++ data.drop (off + t.size))[i]? = data[i]?) ∧
    ((data.take off ++ bs ++ data.drop (off + t.size)).drop off).take t.size = bs := by
  have hlv : data.length = 400 ∧ values = decodeFields BinaryFileHeader.defined_fields data := by
    unfold BinaryFileHeader.decode BinaryFileHeader.BINARY_FILE_HEADER_SIZE at hdec
    split at hdec
    case isTrue hl =>
      split at hdec
      case isTrue hs =>
        cases hdec
        exact ⟨hl, rfl⟩
      case isFalse hs => cases hdec
    case isFalse hl => cases hdec
  obtain ⟨hlen, hvals⟩ := hlv
  have hbound : off + t.size ≤ 400 := by
    have := fieldOffset_bound _ _ _ _ hfield
    rwa [defined_fields_totalSize] at this
  have hbs : bs.length = t.size := packField_length t v bs hpack
  have hofflen : (data.take off).length = off := by
    simp [List.length_take]
    omega
  refine ⟨?_, ?_, ?_⟩
  · rw [hvals]
    exact dumpFields_setValue BinaryFileHeader.defined_fields data name off t v bs
      defined_fields_names_nodup (by rw [defined_fields_totalSize, hlen]) hb hfield hpack
  · intro i hi
    rcases hi with hlt | hge
    · rw [List.append_assoc,
        List.getElem?_append_left (by rw [hofflen]; exact hlt),
        List.getElem?_take_of_lt hlt]
    · rw [List.append_assoc,
        List.getElem?_append_right (by rw [hofflen]; omega),
        List.getElem?_append_right (by rw [hbs, hofflen]; omega)]
      rw [List.getElem?_drop]
      congr 1
      rw [hofflen, hbs]
      omega
  · rw [List.append_assoc, List.drop_left' hofflen, List.take_left' hbs]

set_option maxRecDepth 10000 in
theorem c2_witness :
    BinaryFileHeader.dump_data
        (setValue (decodeFields BinaryFileHeader.defined_fields sampleBuf)
          "nr_of_extensions" (.int 16)) =
      .ok (sampleBuf.take 304 ++ [0, 16] ++ sampleBuf.drop 306) :=
  (c2_selective_mutation sampleBuf _ "nr_of_extensions" 304 .U16 (.int 16) [0, 16]
    (by decide) (by decide) (by decide) (by decide)).1

/-- C3: Endianness gate — for a 400-byte buffer, decoding succeeds
exactly when the 4 bytes at offset 96 (`int_constant`) read big-endian
equal `0x01020304`, and otherwise fails with `endiannessMismatch`;
no other field value is inspected. -/
theorem c3_endianness_gate (data : List Nat) (hlen : data.length = 400) :
    (bytesToNatBE ((data.drop 96).take 4) = 0x01020304 →
      BinaryFileHeader.decode data =
        .ok (decodeFields BinaryFileHeader.defined_fields data)) ∧
    (bytesToNatBE ((data.drop 96).take 4) ≠ 0x01020304 →
      BinaryFileHeader.decode data = .error .endiannessMismatch) := by
  have hlook : lookup (decodeFields BinaryFileHeader.defined_fields data) "int_constant" =
      some (.int (bytesToNatBE ((data.drop 96).take 4))) :=
    lookup_decodeFields _ data "int_constant" 96 .U32 fieldOffset_int_constant
  constructor
  · intro hx
    have hcond : lookup (decodeFields BinaryFileHeader.defined_fields data) "int_constant" =
        some (.int 16909060) := by
      rw [hlook, hx]
      rfl
    unfold BinaryFileHeader.decode BinaryFileHeader.BINARY_FILE_HEADER_SIZE
    rw [if_pos hlen, if_pos hcond]
  · intro hx
    have hcond : ¬ (lookup (decodeFields BinaryFileHeader.defined_fields data) "int_constant" =
        some (.int 16909060)) := by
      rw [hlook]
      intro hcontra
      apply hx
      have h2 := Option.some.inj hcontra
      have h3 : ((bytesToNatBE ((data.drop 96).take 4) : Nat) : Int) = (16909060 : Int) := by
        injection h2
      exact_mod_cast h3
    unfold BinaryFileHeader.decode BinaryFileHeader.BINARY_FILE_HEADER_SIZE
    rw [if_pos hlen, if_neg hcond]

set_option maxRecDepth 10000 in
theorem c3_witness :
    BinaryFileHeader.decode sampleBuf =
      .ok (decodeFields BinaryFileHeader.defined_fields sampleBuf) ∧
    BinaryFileHeader.decode (List.replicate 400 0) = .error .endiannessMismatch :=
  ⟨(c3_endianness_gate sampleBuf (by decide)).1 (by decide),
   (c3_endianness_gate (List.replicate 400 0) (by decide)).2 (by decide)⟩

/-- C4: Length enforcement — decoding a binary-header buffer of length
other than 400 bytes, or a textual-header buffer of length other than
3200 bytes, always fails with `lengthMismatch`. -/
theorem c4_length_enforcement (data : List Nat) :
    (data.length ≠ 400 → BinaryFileHeader.decode data = .error .lengthMismatch) ∧
    (data.length ≠ 3200 → TextualFileHeader.decode data = .error .lengthMismatch) := by
  constructor
  · intro h
    unfold BinaryFileHeader.decode BinaryFileHeader.BINARY_FILE_HEADER_SIZE
    rw [if_neg h]
  · intro h
    unfold TextualFileHeader.decode TextualFileHeader.TEXTUAL_FILE_HEADER_SIZE
    rw [if_neg h]

set_option maxRecDepth 10000 in
theorem c4_witness :
    BinaryFileHeader.decode (List.replicate 399 0) = .error .lengthMismatch ∧
    TextualFileHeader.decode (List.replicate 399 0) = .error .lengthMismatch ∧
    BinaryFileHeader.decode [] = .error .lengthMismatch ∧
    BinaryFileHeader.decode (List.replicate 401 0) = .error .lengthMismatch :=
  ⟨(c4_length_enforcement (List.replicate 399 0)).1 (by decide),
   (c4_length_enforcement (List.replicate 399 0)).2 (by decide),
   (c4_length_enforcement []).1 (by decide),
   (c4_length_enforcement (List.replicate 401 0)).1 (by decide)⟩

/-- C5 (counterexample): the claim states the binary-header schema
enumerates exactly 46 fields; the table actually enumerates 47. -/
theorem c5_counterexample : ¬ (BinaryFileHeader.defined_fields.length = 46) := by
  decide

/-- Shape of one field descriptor: an unsigned integer of width 1, 2,
4 or 8 bytes, or a fixed-length byte string of 200 or 66 bytes. -/
def fieldShapeOk (f : DType × String) : Bool :=
  f.1.intWidth == some 1 || f.1.intWidth == some 2 || f.1.intWidth == some 4 ||
    f.1.intWidth == some 8 || f.1 == DType.S 200 || f.1 == DType.S 66

/-- C5 (amended): the binary-header schema enumerates exactly 47
fields, each an unsigned integer of width 1, 2, 4 or 8 bytes or a
fixed-length byte string of 200 or 66 bytes, and the sum of all field
widths is exactly 400 bytes. -/
theorem c5_field_table_shape :
    BinaryFileHeader.defined_fields.length = 47 ∧
    BinaryFileHeader.defined_fields.all fieldShapeOk = true ∧
    totalSize BinaryFileHeader.defined_fields = 400 := by
  decide

set_option maxRecDepth 10000 in
/-- C6 (counterexample): a value mapping whose `unassigned_1` entry is
a byte string of length 0 — the wrong width for its 200-byte slot —
still encodes successfully (the slot is zero-padded), contradicting
the claim that every wrong-width value fails with an encode error. -/
theorem c6_counterexample :
    BinaryFileHeader.dump_data
        (setValue (decodeFields BinaryFileHeader.defined_fields sampleBuf)
          "unassigned_1" (.bytes [])) = .ok sampleBuf := by
  decide

/-- C6 (amended): encoding either fully succeeds, returning a complete
400-byte buffer, or fails with an `encodeFieldError` naming an
offending schema field — one whose value is missing from the mapping
or cannot be packed into its slot — and produces no output in that
case; conversely, whenever some schema field's value is missing or
unpackable, encoding does fail.  (Byte-string fields pack byte strings
of any length by padding or truncating, so a wrong-width byte string
is not an encode failure.) -/
theorem c6_encode_failure (values : List (String × FValue)) :
    ((∃ out, BinaryFileHeader.dump_data values = .ok out ∧ out.length = 400) ∨
     (∃ t name, (t, name) ∈ BinaryFileHeader.defined_fields ∧
       BinaryFileHeader.dump_data values = .error (.encodeFieldError name) ∧
       (lookup values name = none ∨
         ∃ v, lookup values name = some v ∧ packField t v = none))) ∧
    (∀ t name, (t, name) ∈ BinaryFileHeader.defined_fields →
      (lookup values name = none ∨
        ∃ v, lookup values name = some v ∧ packField t v = none) →
      ∃ e, BinaryFileHeader.dump_data values = .error (.encodeFieldError e)) := by
  have hmain := dumpFields_ok_or_error values BinaryFileHeader.defined_fields
  rw [defined_fields_totalSize] at hmain
  constructor
  · exact hmain
  · intro t name hmem hbad
    rcases hmain with ⟨out, hout, hlen⟩ | ⟨t', name', hmem', herr, hbad'⟩
    · obtain ⟨v, bs, hlk, hpk⟩ := dumpFields_ok_forall values _ out hout t name hmem
      rcases hbad with hnone | ⟨v', hv', hpk'⟩
      · rw [hlk] at hnone
        cases hnone
      · rw [hlk] at hv'
        have hvv : v = v' := Option.some.inj hv'
        subst hvv
        rw [hpk] at hpk'
        cases hpk'
    · exact ⟨name', herr⟩

theorem c6_witness :
    ∃ e, BinaryFileHeader.dump_data [] = .error (.encodeFieldError e) :=
  (c6_encode_failure []).2 .U32 "job_nr" (by decide) (Or.inl rfl)

/-- C7: Line segmentation — any successful textual-header decode
yields exactly 40 lines of exactly 80 characters each, consecutive and
non-overlapping in order, whose concatenation is the full decoded
text. -/
theorem c7_line_segmentation (data text : List Nat) (lines : List (List Nat))
    (hdec : TextualFileHeader.decode data = .ok (text, lines)) :
    lines.length = 40 ∧ (∀ l ∈ lines, l.length = 80) ∧ lines.flatten = text := by
  unfold TextualFileHeader.decode TextualFileHeader.TEXTUAL_FILE_HEADER_SIZE at hdec
  split at hdec
  case isFalse h => cases hdec
  case isTrue hlen =>
    cases hchars : decodeChars data with
    | none =>
      rw [hchars] at hdec
      cases hdec
    | some t0 =>
      rw [hchars] at hdec
      cases hdec
      have htext : text.length = 3200 := by
        rw [decodeChars_length data text hchars]
        exact hlen
      refine ⟨by simp, ?_, ?_⟩
      · intro l hl
        obtain ⟨i, hi, hleq⟩ := List.mem_map.mp hl
        have hilt : i < 40 := List.mem_range.mp hi
        rw [← hleq]
        simp [List.length_take, List.length_drop, htext]
        omega
      · rw [flatten_take_chunks]
        rw [show (3200 / 80) * 80 = 3200 from rfl, ← htext, List.take_length]

theorem decodeChars_replicate64 (n : Nat) :
    decodeChars (List.replicate n 64) = some (List.replicate n 32) := by
  induction n with
  | zero => rfl
  | succ n ih =>
    rw [List.replicate_succ, List.replicate_succ]
    simp only [decodeChars, ih]
    rfl

theorem lines_replicate :
    (List.range 40).map (fun i => ((List.replicate 3200 (32 : Nat)).drop (i * 80)).take 80) =
      List.replicate 40 (List.replicate 80 32) := by
  refine List.eq_replicate_iff.mpr ⟨by rw [List.length_map, List.length_range], ?_⟩
  intro b hb
  obtain ⟨i, hi, hbe⟩ := List.mem_map.mp hb
  have hilt : i < 40 := List.mem_range.mp hi
  rw [← hbe, List.drop_replicate, List.take_replicate]
  congr 1
  omega

theorem textual_decode_replicate64 :
    TextualFileHeader.decode (List.replicate 3200 64) =
      .ok (List.replicate 3200 32, List.replicate 40 (List.replicate 80 32)) := by
  have hlen3200 : (List.replicate 3200 (64 : Nat)).length = 3200 := by
    rw [List.length_replicate]
  unfold TextualFileHeader.decode TextualFileHeader.TEXTUAL_FILE_HEADER_SIZE
  rw [if_pos hlen3200, decodeChars_replicate64,
    show (3200 : Nat) / 80 = 40 from rfl, ← lines_replicate]

theorem c7_witness :
    (List.replicate 40 (List.replicate 80 (32 : Nat))).length = 40 ∧
    (List.replicate 40 (List.replicate 80 (32 : Nat))).flatten = List.replicate 3200 32 :=
  ⟨(c7_line_segmentation (List.replicate 3200 64) (List.replicate 3200 32)
      (List.replicate 40 (List.replicate 80 32)) textual_decode_replicate64).1,
   (c7_line_segmentation (List.replicate 3200 64) (List.replicate 3200 32)
      (List.replicate 40 (List.replicate 80 32)) textual_decode_replicate64).2.2⟩

set_option maxRecDepth 1000 in
/-- C8: the legacy module-level `fields` table equals, descriptor for
descriptor (same type code and same name, in the same order), the
initial segment of `defined_fields` consisting of all fields before
`format_code`. -/
theorem c8_legacy_schema_initial_segment :
    fields = BinaryFileHeader.defined_fields.takeWhile (fun f => f.2 != "format_code") := by
  decide

/-- C9: textual decode is total over content — for a 3200-byte buffer
every byte value decodes (cp1141 assigns a character to every byte
0–255), so the only failure condition of textual decode is a wrong
buffer length. -/
theorem c9_textual_decode_total (data : List Nat) (hb : ∀ b ∈ data, b < 256) :
    (data.length = 3200 →
      ∃ text lines, TextualFileHeader.decode data = .ok (text, lines)) ∧
    (data.length ≠ 3200 →
      TextualFileHeader.decode data = .error .lengthMismatch) := by
  constructor
  · intro hlen
    obtain ⟨text, htext⟩ := decodeChars_total data hb
    refine ⟨text, (List.range (3200 / 80)).map (fun i => (text.drop (i * 80)).take 80), ?_⟩
    unfold TextualFileHeader.decode TextualFileHeader.TEXTUAL_FILE_HEADER_SIZE
    rw [if_pos hlen, htext]
  · intro h
    unfold TextualFileHeader.decode TextualFileHeader.TEXTUAL_FILE_HEADER_SIZE
    rw [if_neg h]

theorem c9_witness :
    ∃ text lines,
      TextualFileHeader.decode (List.replicate 3200 64) = .ok (text, lines) :=
  (c9_textual_decode_total (List.replicate 3200 64)
      (fun b hb => by rw [List.eq_of_mem_replicate hb]; omega)).1
    (by rw [List.length_replicate])

set_option maxRecDepth 10000 in
/-- C10: byte-string fields never reject wrong-length values — setting
`unassigned_1` (200-byte slot) or `unassigned_2` (66-byte slot) to a
byte string of any length still encodes successfully, emitting exactly
the declared width (zero-padding shorter values, truncating longer
ones), so the output buffer is still exactly 400 bytes. -/
theorem c10_byte_string_padding (data : List Nat) (values : List (String × FValue))
    (bs : List Nat) (hb : ∀ b ∈ data, b < 256)
    (hdec : BinaryFileHeader.decode data = .ok values) :
    (BinaryFileHeader.dump_data (setValue values "unassigned_1" (.bytes bs)) =
       .ok (data.take 100 ++ (bs.take 200 ++ List.replicate (200 - bs.length) 0) ++
         data.drop 300) ∧
     (bs.take 200 ++ List.replicate (200 - bs.length) 0).length = 200 ∧
     (data.take 100 ++ (bs.take 200 ++ List.replicate (200 - bs.length) 0) ++
       data.drop 300).length = 400) ∧
    (BinaryFileHeader.dump_data (setValue values "unassigned_2" (.bytes bs)) =
       .ok (data.take 334 ++ (bs.take 66 ++ List.replicate (66 - bs.length) 0) ++
         data.drop 400) ∧
     (bs.take 66 ++ List.replicate (66 - bs.length) 0).length = 66 ∧
     (data.take 334 ++ (bs.take 66 ++ List.replicate (66 - bs.length) 0) ++
       data.drop 400).length = 400) := by
  have hlv : data.length = 400 ∧ values = decodeFields BinaryFileHeader.defined_fields data := by
    unfold BinaryFileHeader.decode BinaryFileHeader.BINARY_FILE_HEADER_SIZE at hdec
    split at hdec
    case isTrue hl =>
      split at hdec
      case isTrue hs =>
        cases hdec
        exact ⟨hl, rfl⟩
      case isFalse hs => cases hdec
    case isFalse hl => cases hdec
  obtain ⟨hlen, hvals⟩ := hlv
  subst hvals
  refine ⟨⟨?_, ?_, ?_⟩, ⟨?_, ?_, ?_⟩⟩
  · exact dumpFields_setValue BinaryFileHeader.defined_fields data "unassigned_1"
      100 (.S 200) (.bytes bs) _ defined_fields_names_nodup
      (by rw [defined_fields_totalSize, hlen]) hb (by decide) rfl
  · simp only [List.length_append, List.length_take, List.length_replicate]
    omega
  · simp only [List.length_append, List.length_take, List.length_replicate,
      List.length_drop, hlen]
    omega
  · exact dumpFields_setValue BinaryFileHeader.defined_fields data "unassigned_2"
      334 (.S 66) (.bytes bs) _ defined_fields_names_nodup
      (by rw [defined_fields_totalSize, hlen]) hb (by decide) rfl
  · simp only [List.length_append, List.length_take, List.length_replicate]
    omega
  · simp only [List.length_append, List.length_take, List.length_replicate,
      List.length_drop, hlen]
    omega

set_option maxRecDepth 10000 in
theorem c10_witness :
    BinaryFileHeader.dump_data
        (setValue (decodeFields BinaryFileHeader.defined_fields sampleBuf)
          "unassigned_1" (.bytes [7, 7, 7])) =
      .ok (sampleBuf.take 100 ++
        ([7, 7, 7].take 200 ++ List.replicate (200 - [7, 7, 7].length) 0) ++
        sampleBuf.drop 300) :=
  ((c10_byte_string_padding sampleBuf _ [7, 7, 7] (by decide) (by decide)).1).1

end RwSegy
